import Mathlib

/-!
Formal model of `src/subdomain_enum.py`, a bounded-concurrency DNS subdomain
enumerator.  The pure data flow of `resolve` and `run_enum` is embedded as
Lean functions; the nondeterministic completion order of the async tasks is
an explicit parameter (a permutation of the launched task list); the
semaphore discipline is embedded as a small-step transition system.
-/

namespace SubdomainEnum

/-- Remove the characters satisfying `p` from both ends of a character list
(the behaviour of Python `str.strip`). -/
def stripWhile (p : Char → Bool) (l : List Char) : List Char :=
  ((l.dropWhile p).reverse.dropWhile p).reverse

/-- Model of Python `w.strip()` (no argument): trim whitespace from both ends. -/
def pyStrip (s : String) : String := ⟨stripWhile (fun c => c.isWhitespace) s.data⟩

/-- Model of Python `s.strip(".")`: trim `.` characters from both ends. -/
def pyStripDot (s : String) : String := ⟨stripWhile (fun c => c == '.') s.data⟩

/-- Line 32 of subdomain_enum.py: the f-string joins sub and domain with a dot
and the result is stripped of leading/trailing dots. -/
def mkFqdn (sub domain : String) : String := pyStripDot (sub ++ "." ++ domain)

/-- Outcome of the single `getaddrinfo` call wrapped in `asyncio.wait_for`
(lines 36): it either returns address records in time, or raises
(timeout from wait_for, gaierror when no records / NXDOMAIN, or any
other exception). -/
inductive LookupOutcome where
  | success
  | timedOut
  | noRecords
  | failure
deriving DecidableEq

/-- Model of `resolve` (lines 16-39): builds the fqdn, performs the lookup,
returns `(fqdn, True)` when it succeeds and `(fqdn, False)` on every
exception path (the bare `except Exception` on line 38). -/
def resolve (sub domain : String) (lookup : String → LookupOutcome) : String × Bool :=
  let fqdn := mkFqdn sub domain
  match lookup fqdn with
  | .success => (fqdn, true)
  | .timedOut => (fqdn, false)
  | .noRecords => (fqdn, false)
  | .failure => (fqdn, false)

/-- Line 59: `word_list = [w.strip() for w in words if w.strip()]`. -/
def wordList (words : List String) : List String :=
  (words.map pyStrip).filter (fun w => w ≠ "")

/-- Lines 60-63: one task per surviving word; the list records each task's
eventual outcome, in submission order. -/
def tasks (domain : String) (words : List String) (lookup : String → LookupOutcome) :
    List (String × Bool) :=
  (wordList words).map (fun w => resolve w domain lookup)

/-- Lines 68-72: the `as_completed` drain loop appends `fqdn` to `hits`
exactly for the outcomes with `ok = True`, in completion order. -/
def hits (completed : List (String × Bool)) : List String :=
  (completed.filter (fun p => p.2)).map Prod.fst

/-- Lexicographic comparison of character lists by code point, the order
Python's `sorted` uses on strings. -/
def lexLe : List Char → List Char → Bool
  | [], _ => true
  | _ :: _, [] => false
  | a :: as, b :: bs => if a = b then lexLe as bs else decide (a < b)

/-- Lexicographic order on strings by code point. -/
def strLe (a b : String) : Bool := lexLe a.data b.data

/-- Line 77: `sorted(set(hits))`: deduplicate, then sort in ascending
lexicographic order. -/
def sortedSet (l : List String) : List String :=
  (l.dedup).insertionSort (fun a b => strLe a b = true)

/-- The value returned by `run_enum` (line 77), as a function of the
completion-order sequence of task outcomes.  In any actual run the
argument is a permutation of `tasks domain words lookup`; theorems carry
that hypothesis explicitly. -/
def run_enum (completed : List (String × Bool)) : List String :=
  sortedSet (hits completed)

/-- A lookup behaviour under which every name resolves. -/
def allSuccess : String → LookupOutcome := fun _ => .success

/-- A lookup behaviour whose set of resolving FQDNs is exactly
the pair zeta.example.com, alpha.example.com. -/
def zaLookup : String → LookupOutcome := fun s =>
  if s == "zeta.example.com" || s == "alpha.example.com" then .success else .failure

/-- The set of FQDNs the spec's subset property claims the result is drawn
from: trim(c) + "." + domain over the non-blank trimmed candidates.
This follows the spec's words, for comparison with the code's `mkFqdn`. -/
def claimedFqdnSet (domain : String) (words : List String) : List String :=
  (wordList words).map (fun c => c ++ "." ++ domain)

/-! ### The semaphore discipline of `run_enum`/`resolve`

`run_enum` builds `asyncio.Semaphore(concurrency)` (line 58) and every
task evaluates its lookup inside `async with semaphore` (lines 33-39),
which acquires one permit before the I/O and releases it on every exit
path, normal or exceptional.  The counter abstraction below has one
transition for a queued task acquiring a permit and entering its I/O
phase, and one for a task in its I/O phase releasing the permit and
finishing (covering the success, timeout and exception exits alike,
exactly as the `async with` block does). -/

/-- Scheduler state: free semaphore permits, tasks not yet admitted to the
I/O phase, tasks inside the I/O phase (holding a permit), finished tasks. -/
structure SemState where
  avail : Nat
  queued : Nat
  active : Nat
  finished : Nat
deriving DecidableEq

/-- Initial state of a run with capacity `c` and `n` launched tasks:
all permits free, all tasks queued (line 58, 60-63). -/
def initState (c n : Nat) : SemState :=
  { avail := c, queued := n, active := 0, finished := 0 }

/-- One scheduler step: a queued task acquires a permit when one is free,
or a task in its I/O phase releases its permit and finishes. -/
inductive SemStep : SemState → SemState → Prop
  | acquire (s : SemState) (ha : 0 < s.avail) (hq : 0 < s.queued) :
      SemStep s { avail := s.avail - 1, queued := s.queued - 1,
                  active := s.active + 1, finished := s.finished }
  | release (s : SemState) (hb : 0 < s.active) :
      SemStep s { avail := s.avail + 1, queued := s.queued,
                  active := s.active - 1, finished := s.finished + 1 }

/-- States reachable during a run with capacity `c` and `n` tasks. -/
def Reachable (c n : Nat) (s : SemState) : Prop :=
  Relation.ReflTransGen SemStep (initState c n) s

/-- The two conserved quantities of the scheduler: permits are neither
created nor destroyed, and tasks are neither created nor destroyed. -/
theorem reachable_invariant {c n : Nat} {s : SemState} (h : Reachable c n s) :
    s.avail + s.active = c ∧ s.queued + s.active + s.finished = n := by
  induction h with
  | refl => simp [initState]
  | tail _ hstep ih =>
    cases hstep with
    | acquire ha hq =>
      refine ⟨?_, ?_⟩ <;> simp only [] <;> omega
    | release hb =>
      refine ⟨?_, ?_⟩ <;> simp only [] <;> omega

/-! ### Order facts about the lexicographic comparison -/

theorem lexLe_total : ∀ a b : List Char, lexLe a b = true ∨ lexLe b a = true := by
  intro a
  induction a with
  | nil => intro b; left; rfl
  | cons x as ih =>
    intro b
    cases b with
    | nil => right; rfl
    | cons y bs =>
      by_cases hxy : x = y
      · subst hxy
        rcases ih bs with h | h
        · left; simpa [lexLe] using h
        · right; simpa [lexLe] using h
      · rcases lt_trichotomy x y with hlt | heq | hgt
        · left; simp [lexLe, hxy, hlt]
        · exact absurd heq hxy
        · right; simp [lexLe, Ne.symm hxy, hgt]

theorem lexLe_trans : ∀ {a b c : List Char},
    lexLe a b = true → lexLe b c = true → lexLe a c = true := by
  intro a
  induction a with
  | nil => intro b c _ _; rfl
  | cons x as ih =>
    intro b c hab hbc
    cases b with
    | nil => simp [lexLe] at hab
    | cons y bs =>
      cases c with
      | nil => simp [lexLe] at hbc
      | cons z cs =>
        by_cases hxy : x = y
        · subst hxy
          simp only [lexLe, if_pos rfl] at hab
          by_cases hyz : x = z
          · subst hyz
            simp only [lexLe, if_pos rfl] at hbc ⊢
            exact ih hab hbc
          · simp only [lexLe, if_neg hyz, decide_eq_true_eq] at hbc ⊢
            exact hbc
        · simp only [lexLe, if_neg hxy, decide_eq_true_eq] at hab
          by_cases hyz : y = z
          · subst hyz
            simp [lexLe, hxy, hab]
          · simp only [lexLe, if_neg hyz, decide_eq_true_eq] at hbc
            have hxz : x < z := lt_trans hab hbc
            simp [lexLe, ne_of_lt hxz, hxz]

theorem lexLe_antisymm : ∀ {a b : List Char},
    lexLe a b = true → lexLe b a = true → a = b := by
  intro a
  induction a with
  | nil =>
    intro b _ hba
    cases b with
    | nil => rfl
    | cons y bs => simp [lexLe] at hba
  | cons x as ih =>
    intro b hab hba
    cases b with
    | nil => simp [lexLe] at hab
    | cons y bs =>
      by_cases hxy : x = y
      · subst hxy
        simp only [lexLe, if_pos rfl] at hab hba
        rw [ih hab hba]
      · simp only [lexLe, if_neg hxy, decide_eq_true_eq] at hab
        simp only [lexLe, if_neg (Ne.symm hxy), decide_eq_true_eq] at hba
        exact absurd hba (lt_asymm hab)

instance : IsTotal String (fun a b => strLe a b = true) :=
  ⟨fun a b => lexLe_total a.data b.data⟩

instance : IsTrans String (fun a b => strLe a b = true) :=
  ⟨fun _ _ _ hab hbc => lexLe_trans hab hbc⟩

instance : IsAntisymm String (fun a b => strLe a b = true) :=
  ⟨fun a b hab hba => by
    cases a; cases b
    exact congrArg String.mk (lexLe_antisymm hab hba)⟩

/-! ### Helper lemmas about `sortedSet` and `run_enum` -/

theorem sortedSet_perm_dedup (l : List String) : (sortedSet l).Perm l.dedup :=
  List.perm_insertionSort _ _

theorem sortedSet_nodup (l : List String) : (sortedSet l).Nodup :=
  (List.perm_insertionSort _ l.dedup).symm.nodup (List.nodup_dedup l)

theorem sortedSet_sorted (l : List String) :
    (sortedSet l).Sorted (fun a b => strLe a b = true) :=
  List.sorted_insertionSort _ _

theorem mem_sortedSet {x : String} {l : List String} : x ∈ sortedSet l ↔ x ∈ l := by
  rw [(sortedSet_perm_dedup l).mem_iff, List.mem_dedup]

theorem sortedSet_congr {l₁ l₂ : List String} (h : l₁.Perm l₂) :
    sortedSet l₁ = sortedSet l₂ :=
  List.eq_of_perm_of_sorted
    (((sortedSet_perm_dedup l₁).trans h.dedup).trans (sortedSet_perm_dedup l₂).symm)
    (sortedSet_sorted l₁) (sortedSet_sorted l₂)

theorem run_enum_congr {c₁ c₂ : List (String × Bool)} (h : c₁.Perm c₂) :
    run_enum c₁ = run_enum c₂ :=
  sortedSet_congr ((h.filter _).map _)

/-- The first component of a resolver task's outcome is always the
constructed fqdn, on every branch of the match. -/
theorem resolve_fst (sub domain : String) (lookup : String → LookupOutcome) :
    (resolve sub domain lookup).1 = mkFqdn sub domain := by
  cases h : lookup (mkFqdn sub domain) <;> simp [resolve, h]

/-! ### Characterisation of the two-sided strip -/

/-- Dropping leading `c` characters removes exactly a (maximal) run of `c`. -/
theorem dropWhile_eq_replicate_append (c : Char) (l : List Char) :
    ∃ n, l = List.replicate n c ++ l.dropWhile (fun b => b == c) := by
  induction l with
  | nil => exact ⟨0, rfl⟩
  | cons a l ih =>
    by_cases h : a = c
    · obtain ⟨n, hn⟩ := ih
      refine ⟨n + 1, ?_⟩
      rw [List.replicate_succ, List.cons_append, List.dropWhile_cons,
        if_pos (by simp [h] : ((a == c) = true))]
      rw [h]
      exact congrArg (List.cons _) hn
    · refine ⟨0, ?_⟩
      rw [List.dropWhile_cons]
      simp [h]

/-- The head surviving `dropWhile (· == c)` is not `c`. -/
theorem head?_dropWhile_ne (c : Char) (l : List Char) :
    ∀ a, (l.dropWhile (fun b => b == c)).head? = some a → a ≠ c := by
  induction l with
  | nil => intro a h; simp at h
  | cons x l ih =>
    intro a h
    rw [List.dropWhile_cons] at h
    by_cases hx : x = c
    · simp [hx] at h
      exact ih a h
    · simp [hx] at h
      exact fun hac => hx (h.trans hac)

/-- Stripping `c` from both ends removes exactly a run of `c` on each side
and nothing else, and the remainder neither starts nor ends with `c`. -/
theorem stripWhile_spec (c : Char) (l : List Char) :
    ∃ n m, l = List.replicate n c ++ stripWhile (fun b => b == c) l ++ List.replicate m c ∧
      (∀ a, (stripWhile (fun b => b == c) l).head? = some a → a ≠ c) ∧
      (∀ a, (stripWhile (fun b => b == c) l).getLast? = some a → a ≠ c) := by
  obtain ⟨n, hn⟩ := dropWhile_eq_replicate_append c l
  obtain ⟨m, hm⟩ := dropWhile_eq_replicate_append c (l.dropWhile (fun b => b == c)).reverse
  have hmid : l.dropWhile (fun b => b == c) =
      stripWhile (fun b => b == c) l ++ List.replicate m c := by
    have := congrArg List.reverse hm
    rw [List.reverse_reverse, List.reverse_append, List.reverse_replicate] at this
    exact this
  refine ⟨n, m, ?_, ?_, ?_⟩
  · rw [List.append_assoc, ← hmid]
    exact hn
  · intro a ha
    have hne : stripWhile (fun b => b == c) l ≠ [] := by
      intro hnil
      rw [hnil] at ha
      simp at ha
    have hhead : (l.dropWhile (fun b => b == c)).head? = some a := by
      rw [hmid]
      cases hs : stripWhile (fun b => b == c) l with
      | nil => exact absurd hs hne
      | cons y ys =>
        rw [hs] at ha
        rw [List.head?_cons, Option.some_inj] at ha
        rw [List.cons_append, List.head?_cons, ha]
    exact head?_dropWhile_ne c l a hhead
  · intro a ha
    rw [stripWhile, List.getLast?_reverse] at ha
    exact head?_dropWhile_ne c _ a ha

/-! ### The claims -/

/-- C1: at no point during a run of run_enum are more than `concurrency`
resolver tasks simultaneously inside their network-I/O phase: in every
state reachable from the initial state of a run with positive capacity
`c`, the number of tasks that have acquired the semaphore and not yet
released it is at most `c`. -/
theorem c1_concurrency_bound {c n : Nat} (hc : 0 < c) {s : SemState}
    (h : Reachable c n s) : s.active ≤ c := by
  have hinv := reachable_invariant h
  omega

/-- Witness for C1: after one task of a capacity-1, one-task run acquires
the semaphore, the reached state has exactly one active task, within the
bound. -/
theorem c1_witness :
    0 < 1 ∧
    Reachable 1 1 { avail := 0, queued := 0, active := 1, finished := 0 } ∧
    SemState.active { avail := 0, queued := 0, active := 1, finished := 0 } ≤ 1 := by
  have hreach : Reachable 1 1 { avail := 0, queued := 0, active := 1, finished := 0 } :=
    Relation.ReflTransGen.single (SemStep.acquire (initState 1 1) (by decide) (by decide))
  exact ⟨by decide, hreach, c1_concurrency_bound (by decide) hreach⟩

/-- C2: for every completion order, the list returned by run_enum is
duplicate-free and sorted in ascending lexicographic order; with resolving
set zeta.example.com, alpha.example.com the result is
[alpha.example.com, zeta.example.com], and the duplicate candidates
www, www, and www-with-spaces contribute at most one occurrence of
www.example.com. -/
theorem c2_sorted_dedup :
    (∀ completed : List (String × Bool),
        (run_enum completed).Nodup ∧
        (run_enum completed).Sorted (fun a b => strLe a b = true)) ∧
    (∀ completed : List (String × Bool),
        completed.Perm (tasks "example.com" ["zeta", "alpha"] zaLookup) →
        run_enum completed = ["alpha.example.com", "zeta.example.com"]) ∧
    (∀ completed : List (String × Bool),
        completed.Perm (tasks "example.com" ["www", "www", " www "] allSuccess) →
        (run_enum completed).count "www.example.com" ≤ 1) := by
  refine ⟨fun completed => ⟨sortedSet_nodup _, sortedSet_sorted _⟩,
    fun completed h => ?_, fun completed h => ?_⟩
  · rw [run_enum_congr h]
    decide
  · rw [run_enum_congr h]
    decide

/-- Witness for C2: the completion order equal to the submission order is a
permutation of the task list, and the zeta/alpha run returns the two names
in ascending order. -/
theorem c2_witness :
    (tasks "example.com" ["zeta", "alpha"] zaLookup).Perm
        (tasks "example.com" ["zeta", "alpha"] zaLookup) ∧
    run_enum (tasks "example.com" ["zeta", "alpha"] zaLookup) =
        ["alpha.example.com", "zeta.example.com"] :=
  ⟨List.Perm.refl _, c2_sorted_dedup.2.1 _ (List.Perm.refl _)⟩

/-- C3 counterexample: for candidate ".www" against example.com (everything
resolving), run_enum returns www.example.com, which is not in the set
trim(c) + "." + domain over the non-blank trimmed candidates, because the
code additionally strips the leading dot of the joined name.  So the result
is not always a subset of the claimed set. -/
theorem c3_counterexample :
    "www.example.com" ∈ run_enum (tasks "example.com" [".www"] allSuccess) ∧
    "www.example.com" ∉ claimedFqdnSet "example.com" [".www"] := by
  decide

/-- C3 (amended): every element of the list returned by run_enum is a member
of the set of FQDNs constructed by resolve from the non-blank trimmed
candidates, namely strip(trim(c) + "." + domain, ".") for c in candidates
with trim(c) nonempty. -/
theorem c3_subset_amended (domain : String) (words : List String)
    (lookup : String → LookupOutcome) (completed : List (String × Bool))
    (h : completed.Perm (tasks domain words lookup)) :
    ∀ x ∈ run_enum completed, x ∈ (wordList words).map (fun c => mkFqdn c domain) := by
  intro x hx
  rw [run_enum_congr h, run_enum, mem_sortedSet, hits] at hx
  obtain ⟨p, hp, hpx⟩ := List.mem_map.1 hx
  have hpt : p ∈ tasks domain words lookup := (List.mem_filter.1 hp).1
  obtain ⟨w, hw, hwp⟩ := List.mem_map.1 hpt
  refine List.mem_map.2 ⟨w, hw, ?_⟩
  rw [← hpx, ← hwp, resolve_fst]

/-- Witness for C3 (amended): in the concrete one-candidate run for mail
against example.com, the returned name mail.example.com is in the set of
constructed FQDNs. -/
theorem c3_witness :
    (tasks "example.com" ["mail"] allSuccess).Perm
        (tasks "example.com" ["mail"] allSuccess) ∧
    "mail.example.com" ∈ (wordList ["mail"]).map (fun c => mkFqdn c "example.com") :=
  ⟨List.Perm.refl _,
    c3_subset_amended "example.com" ["mail"] allSuccess _ (List.Perm.refl _)
      "mail.example.com" (by decide)⟩

/-- C4: resolve never propagates an error: for every label, domain and
lookup behaviour it returns the pair of the constructed fqdn and a boolean
that is true exactly when the lookup succeeds; every failure outcome
(timeout, no records, any other failure) yields the same (fqdn, false),
so a single lookup failure never raises out of the task. -/
theorem c4_resolve_never_propagates (sub domain : String)
    (lookup : String → LookupOutcome) :
    resolve sub domain lookup =
      (mkFqdn sub domain, decide (lookup (mkFqdn sub domain) = .success)) := by
  cases h : lookup (mkFqdn sub domain) <;> simp [resolve, h]

/-- C5: permits are conserved on every exit path: in every reachable state
the free permits plus the held permits equal the initial capacity `c`, and
in particular once no task is inside the I/O phase the semaphore's
effective capacity is back to `c`. -/
theorem c5_no_permit_leak {c n : Nat} {s : SemState} (h : Reachable c n s) :
    s.avail + s.active = c ∧ (s.active = 0 → s.avail = c) := by
  have hinv := reachable_invariant h
  constructor <;> omega

/-- Witness for C5: a capacity-2 run whose single task acquired and
released; at the end both permits are free again. -/
theorem c5_witness :
    Reachable 2 1 { avail := 2, queued := 0, active := 0, finished := 1 } ∧
    (2 + 0 = 2 ∧ (0 = 0 → 2 = 2)) := by
  have h1 : SemStep (initState 2 1) { avail := 1, queued := 0, active := 1, finished := 0 } :=
    SemStep.acquire (initState 2 1) (by decide) (by decide)
  have h2 : SemStep { avail := 1, queued := 0, active := 1, finished := 0 }
      { avail := 2, queued := 0, active := 0, finished := 1 } :=
    SemStep.release { avail := 1, queued := 0, active := 1, finished := 0 } (by decide)
  have hreach : Reachable 2 1 { avail := 2, queued := 0, active := 0, finished := 1 } :=
    Relation.ReflTransGen.head h1 (Relation.ReflTransGen.single h2)
  exact ⟨hreach, c5_no_permit_leak hreach⟩

/-- C6: the FQDN constructed by resolve is exactly the concatenation
label ++ "." ++ domain with a run of leading and a run of trailing "."
characters removed and nothing else changed: the concatenation splits as
dots ++ fqdn ++ dots, and the fqdn neither starts nor ends with a dot. -/
theorem c6_fqdn_strip (sub domain : String) :
    ∃ n m,
      (sub ++ "." ++ domain).data =
          List.replicate n '.' ++ (mkFqdn sub domain).data ++ List.replicate m '.' ∧
      (∀ a, (mkFqdn sub domain).data.head? = some a → a ≠ '.') ∧
      (∀ a, (mkFqdn sub domain).data.getLast? = some a → a ≠ '.') :=
  stripWhile_spec '.' (sub ++ "." ++ domain).data

/-- C7 counterexample: for the duplicate candidates www, www the engine
produces two resolution outcomes, not one per distinct non-empty trimmed
candidate: duplicates are not collapsed before tasks are launched. -/
theorem c7_counterexample :
    (tasks "example.com" ["www", "www"] allSuccess).length ≠
      ((wordList ["www", "www"]).dedup).length := by
  decide

/-- C7 (amended): the number of resolution outcomes produced equals the
number of candidates that are non-empty after trimming, counted with
multiplicity — each surviving candidate yields exactly one outcome, never
zero and never more than one, but duplicates are not collapsed. -/
theorem c7_one_outcome_per_candidate (domain : String) (words : List String)
    (lookup : String → LookupOutcome) :
    (tasks domain words lookup).length = words.countP (fun w => pyStrip w ≠ "") := by
  rw [tasks, List.length_map, wordList, ← List.countP_eq_length_filter, List.countP_map]
  rfl

/-- C8: run_enum discards exactly the candidates that are empty after
trimming whitespace and performs no other input validation: a trimmed
candidate survives iff it is nonempty, and the run on the empty, blank and
mail candidates returns exactly mail.example.com whenever mail.example.com
resolves. -/
theorem c8_empty_filtering :
    (∀ (words : List String) (w : String),
        w ∈ wordList words ↔ (w ≠ "" ∧ ∃ cand ∈ words, pyStrip cand = w)) ∧
    (∀ (lookup : String → LookupOutcome) (completed : List (String × Bool)),
        lookup "mail.example.com" = .success →
        completed.Perm (tasks "example.com" ["", "  ", "mail"] lookup) →
        run_enum completed = ["mail.example.com"]) := by
  constructor
  · intro words w
    rw [wordList, List.mem_filter]
    simp only [List.mem_map, decide_eq_true_eq]
    tauto
  · intro lookup completed hmail hperm
    have hwl : wordList ["", "  ", "mail"] = ["mail"] := by decide
    have hfq : mkFqdn "mail" "example.com" = "mail.example.com" := by decide
    have htask : tasks "example.com" ["", "  ", "mail"] lookup =
        [("mail.example.com", true)] := by
      rw [tasks, hwl, List.map_singleton, resolve, hfq, hmail]
    rw [run_enum_congr hperm, htask]
    decide

/-- Witness for C8: under a lookup where everything resolves, the empty,
blank and mail candidates give exactly mail.example.com. -/
theorem c8_witness :
    allSuccess "mail.example.com" = LookupOutcome.success ∧
    (tasks "example.com" ["", "  ", "mail"] allSuccess).Perm
        (tasks "example.com" ["", "  ", "mail"] allSuccess) ∧
    run_enum (tasks "example.com" ["", "  ", "mail"] allSuccess) =
        ["mail.example.com"] :=
  ⟨rfl, List.Perm.refl _, c8_empty_filtering.2 allSuccess _ rfl (List.Perm.refl _)⟩

/-- C9: run_enum is deterministic with respect to completion order: two
runs over the same domain, candidates and resolver behaviour return the
same list, whatever order the individual lookups complete in. -/
theorem c9_deterministic (domain : String) (words : List String)
    (lookup : String → LookupOutcome) (c₁ c₂ : List (String × Bool))
    (h₁ : c₁.Perm (tasks domain words lookup))
    (h₂ : c₂.Perm (tasks domain words lookup)) :
    run_enum c₁ = run_enum c₂ :=
  run_enum_congr (h₁.trans h₂.symm)

/-- Witness for C9: completing the zeta/alpha tasks in submission order or
in reverse order yields the same result list. -/
theorem c9_witness :
    (tasks "example.com" ["zeta", "alpha"] zaLookup).Perm
        (tasks "example.com" ["zeta", "alpha"] zaLookup) ∧
    ((tasks "example.com" ["zeta", "alpha"] zaLookup).reverse).Perm
        (tasks "example.com" ["zeta", "alpha"] zaLookup) ∧
    run_enum (tasks "example.com" ["zeta", "alpha"] zaLookup) =
        run_enum ((tasks "example.com" ["zeta", "alpha"] zaLookup).reverse) :=
  ⟨List.Perm.refl _, List.reverse_perm _,
    c9_deterministic "example.com" ["zeta", "alpha"] zaLookup _ _
      (List.Perm.refl _) (List.reverse_perm _)⟩

/-- C10: if every candidate is empty after trimming (in particular if the
candidate sequence is empty), run_enum launches no resolver task and
returns the empty list. -/
theorem c10_all_blank (domain : String) (words : List String)
    (lookup : String → LookupOutcome) (hblank : ∀ w ∈ words, pyStrip w = "") :
    tasks domain words lookup = [] ∧
    ∀ completed : List (String × Bool),
      completed.Perm (tasks domain words lookup) → run_enum completed = [] := by
  have hwl : wordList words = [] := by
    rw [wordList, List.filter_eq_nil_iff]
    intro a ha
    obtain ⟨w, hw, hwa⟩ := List.mem_map.1 ha
    simp [← hwa, hblank w hw]
  have htask : tasks domain words lookup = [] := by
    rw [tasks, hwl, List.map_nil]
  refine ⟨htask, fun completed hperm => ?_⟩
  rw [run_enum_congr hperm, htask]
  decide

/-- Witness for C10: an empty and a blank candidate produce no tasks and an
empty result. -/
theorem c10_witness :
    (∀ w ∈ ["", "  "], pyStrip w = "") ∧
    tasks "example.com" ["", "  "] allSuccess = [] ∧
    run_enum [] = [] := by
  have h := c10_all_blank "example.com" ["", "  "] allSuccess (by decide)
  exact ⟨by decide, h.1, h.2 [] (by rw [h.1])⟩

end SubdomainEnum
